import Mathlib

/-!
# Verification of the multi-tenant agent vector store

Shallow embedding of `backend/app/vector_store.py` (class `AgentVectorStore`):
collection naming, lazy collection creation with a process-lifetime handle
cache, report ingestion (chunking, per-chunk metadata, upsert), hybrid
private/shared similarity query with merge, stable score sort, hash-based
deduplication and top-k truncation, and private-collection deletion.

Modelling conventions:
* Python strings are `String`, Python ints are `Int`/`Nat`, metadata values
  are the inductive `MValue`, metadata dicts are association lists in which
  a later binding of a key shadows an earlier one (`dictGet` scans for the
  last binding, matching a Python dict literal with `**overrides` at the end).
* The embedding model is an environment parameter: `Env.distance q c` is the
  vector distance between the embedding of query text `q` and chunk text `c`
  (embeddings depend only on the text, so the distance does too).
  `Env.pyHash` is the runtime's string hash (Python `hash`), `Env.now` the
  `datetime.utcnow().isoformat()` timestamp of the running call.
* The storage backend holds two levels, mirroring the code: `Store.cache`
  is the set of collection names with a cached `Chroma` handle
  (`self._collection_cache`), and `Store.disk` maps each collection name to
  the chunks persisted for it under `persist_directory`.  Chroma keeps all
  collections inside its own internal files under `persist_directory`
  (an sqlite database / parquet files plus UUID-named segment directories);
  there is no file or directory named `persist_directory/<collection_name>`.
  Consequently the `shutil.rmtree(os.path.join(persist_directory,
  collection_name))` branch of `delete_agent_memory` finds no such path and
  removes nothing: deletion evicts the cached handle only and leaves
  `Store.disk` unchanged.
* A similarity search over a collection returns the stored chunks that pass
  the metadata filter, ordered by ascending distance to the query (ties in
  stored order), truncated to `k`; the query text is embedded once per
  search call.  Fresh `uuid4` chunk identifiers are not modelled: chunks are
  identified by their position in the persisted list.
* Each operation returns an `OpOut`: the Python return value, the new store,
  and the list of texts sent to the embedding model during the call.
-/

/-- A Python scalar metadata value. -/
inductive MValue where
  | str (s : String)
  | int (n : Int)
  | bool (b : Bool)
  deriving DecidableEq, Repr

/-- A Python metadata dict, as an association list; later bindings shadow
earlier ones, as in a dict literal ending in `**overrides`. -/
abbrev Meta := List (String × MValue)

/-- Lookup in a metadata dict: the last binding of a key wins. -/
def dictGet : Meta → String → Option MValue
  | [], _ => none
  | (key, v) :: t, n =>
    match dictGet t n with
    | some w => some w
    | none => if key = n then some v else none

/-- A stored chunk: `langchain.schema.Document(page_content, metadata)`. -/
structure Doc where
  page_content : String
  metadata : Meta
  deriving DecidableEq, Repr

/-- One entry of the merged result list built by `query_agent_memory`:
the dict `{"content", "metadata", "score", "source"}`. -/
structure QueryResult where
  content : String
  metadata : Meta
  score : ℚ
  source : String
  deriving DecidableEq, Repr

/-- The storage backend seen by one `AgentVectorStore` instance.
`cache` is the set of collection names with a cached handle
(`self._collection_cache`); `disk` maps a collection name to the chunks
Chroma has persisted for it under `persist_directory`. -/
structure Store where
  cache : List String
  disk : List (String × List Doc)
  deriving DecidableEq, Repr

/-- The store of a freshly constructed `AgentVectorStore` over an empty
`persist_directory`. -/
def emptyStore : Store := ⟨[], []⟩

/-- The runtime environment of a call: the embedding model (as the induced
query-to-chunk distance), Python's string hash, and the current time. -/
structure Env where
  distance : String → String → ℚ
  pyHash : String → Int
  now : String

/-- Result of one operation: the Python return value, the store afterwards,
and the texts embedded during the call, in order. -/
structure OpOut (α : Type) where
  result : α
  store : Store
  embedded : List String

/-- Look up the persisted chunks of a collection. -/
def diskGet : List (String × List Doc) → String → Option (List Doc)
  | [], _ => none
  | (key, v) :: t, n => if key = n then some v else diskGet t n

/-- Overwrite (or append) the persisted chunks of a collection. -/
def diskSet : List (String × List Doc) → String → List Doc → List (String × List Doc)
  | [], n, ds => [(n, ds)]
  | (key, v) :: t, n, ds => if key = n then (n, ds) :: t else (key, v) :: diskSet t n ds

/-- Python truthiness of the `agent_id` argument (`elif agent_id:`):
`None` and the empty string are falsy. -/
def pyTruthy : Option String → Bool
  | some s => s ≠ ""
  | none => false

/-- The single shared collection name. -/
def shared_collection_name : String := "shared_organizational_knowledge"

/-- The private collection name derived from an agent identifier
(`f"agent_private_memory_{agent_id}"`). -/
def private_collection_name (agent_id : String) : String :=
  "agent_private_memory_" ++ agent_id

/-- `AgentVectorStore._get_collection_name`: shared pool name when
`is_shared`, otherwise the private name of a truthy `agent_id`,
otherwise `raise ValueError(...)`. -/
def get_collection_name (agent_id : Option String) (is_shared : Bool) : Except String String :=
  if is_shared then
    Except.ok shared_collection_name
  else if pyTruthy agent_id then
    Except.ok (private_collection_name (agent_id.getD ""))
  else
    Except.error "Must provide agent_id for private memory or set is_shared=True"

/-- `AgentVectorStore._get_or_create_collection`: return the chunks visible
through the (possibly new) handle, and the store afterwards.  A cached name
is reused untouched; otherwise a handle is cached and the persistent
collection is created if Chroma does not already have it. -/
def get_or_create_collection (s : Store) (collection_name : String) : List Doc × Store :=
  if collection_name ∈ s.cache then
    ((diskGet s.disk collection_name).getD [], s)
  else
    ((diskGet s.disk collection_name).getD [],
     { cache := collection_name :: s.cache,
       disk := if (diskGet s.disk collection_name).isSome then s.disk
               else s.disk ++ [(collection_name, [])] })

/-- Chunk windows with explicit fuel, so that the recursion is structural
and evaluates inside the kernel.  Each step consumes a window of 1000
characters and advances by the stride `1000 - 200 = 800` (window minus
overlap); the fuel `l.length` supplied by `chunkWindows` is always enough,
so the fuel-exhausted fallback is never reached. -/
def chunkWindowsFuel : Nat → List Char → List (List Char)
  | 0, l => [l]
  | fuel + 1, l =>
    if l.length ≤ 1000 then [l]
    else l.take 1000 :: chunkWindowsFuel fuel (l.drop 800)

/-- List of chunks of a list of characters: windows of 1000 characters,
advancing by the stride `1000 - 200` (window minus overlap). -/
def chunkWindows (l : List Char) : List (List Char) :=
  chunkWindowsFuel l.length l

/-- Modelled from the spec: the chunker
(`RecursiveCharacterTextSplitter(chunk_size=1000, chunk_overlap=200)
.split_text`) is third-party library code whose source is not in this
repository.  Per the spec's chunker contract (§4.2): chunks of at most
`window = 1000` characters, consecutive chunks share `overlap = 200`
characters, output order is document order, and a text of at most `window`
characters is returned as the single chunk equal to the input. -/
def split_text (text : String) : List String :=
  (chunkWindows text.data).map String.mk

/-- Python `enumerate` over a list, starting at `i`. -/
def enumFrom (i : Nat) : List α → List (Nat × α)
  | [] => []
  | a :: t => (i, a) :: enumFrom (i + 1) t

/-- The per-chunk metadata dict built by `ingest_report` for chunk index `i`
of `total` chunks: the system fields, then the caller's `metadata`
(`**(metadata or {})`), whose bindings shadow the system ones. -/
def chunk_metadata (env : Env) (agent_id report_id report_title : String)
    (is_shared_knowledge : Bool) (metadata : Option Meta) (i total : Nat) : Meta :=
  [("agent_id", MValue.str agent_id),
   ("report_id", MValue.str report_id),
   ("report_title", MValue.str report_title),
   ("chunk_index", MValue.int i),
   ("total_chunks", MValue.int total),
   ("source", MValue.str "agent_report"),
   ("is_shared_knowledge", MValue.bool is_shared_knowledge),
   ("ingested_at", MValue.str env.now)]
  ++ metadata.getD []

/-- The `documents` list built by `ingest_report` from the chunks of
`report_content`. -/
def build_documents (env : Env) (agent_id report_id report_title report_content : String)
    (is_shared_knowledge : Bool) (metadata : Option Meta) : List Doc :=
  let chunks := split_text report_content
  (enumFrom 0 chunks).map fun ic =>
    { page_content := ic.2,
      metadata := chunk_metadata env agent_id report_id report_title
        is_shared_knowledge metadata ic.1 chunks.length }

/-- Return value of `ingest_report`. -/
inductive IngestResult where
  | ok (report_id collection : String) (chunks_ingested : Nat)
  | error (msg : String)
  deriving DecidableEq, Repr

/-- `AgentVectorStore.ingest_report`: chunk the report, build per-chunk
metadata, resolve the target collection from `(agent_id,
is_shared_knowledge)`, create it if needed, embed the chunks and append them,
and persist.  A falsy `agent_id` with `is_shared_knowledge = False` raises
`ValueError` inside the `try` (after chunking, before any embedding), which
the `except` turns into an error result; the store is untouched in that
case. -/
def ingest_report (env : Env) (agent_id report_id report_title report_content : String)
    (is_shared_knowledge : Bool) (metadata : Option Meta) (s : Store) :
    OpOut IngestResult :=
  let chunks := split_text report_content
  let documents := build_documents env agent_id report_id report_title report_content
    is_shared_knowledge metadata
  match get_collection_name (some agent_id) is_shared_knowledge with
  | Except.error e => ⟨IngestResult.error e, s, []⟩
  | Except.ok collection_name =>
    let existing := (get_or_create_collection s collection_name).1
    let s1 := (get_or_create_collection s collection_name).2
    if documents.isEmpty then
      -- chromadb rejects an `upsert` with an empty id list before embedding
      ⟨IngestResult.error "Expected IDs to be a non-empty list", s1, []⟩
    else
      ⟨IngestResult.ok report_id collection_name documents.length,
       { cache := s1.cache, disk := diskSet s1.disk collection_name (existing ++ documents) },
       chunks⟩

/-- The Chroma metadata `filter`: a chunk passes when every key/value pair
of the filter dict matches its metadata (`None` means no filter). -/
def passFilter (filter_metadata : Option Meta) (d : Doc) : Bool :=
  match filter_metadata with
  | none => true
  | some kvs => kvs.all fun kv => dictGet d.metadata kv.1 == some kv.2

/-- Ordering of scored chunks by ascending distance. -/
def scoredLE (a b : Doc × ℚ) : Prop := a.2 ≤ b.2

instance : DecidableRel scoredLE := fun a b => inferInstanceAs (Decidable (a.2 ≤ b.2))

instance : IsTotal (Doc × ℚ) scoredLE := ⟨fun a b => le_total a.2 b.2⟩

instance : IsTrans (Doc × ℚ) scoredLE := ⟨fun _ _ _ h1 h2 => le_trans h1 h2⟩

/-- `Chroma.similarity_search_with_score` over the chunks of one collection:
embed the query (the caller records that separately), keep the chunks passing
the metadata filter, order by ascending distance to the query (a stable sort:
ties keep stored order), and return the first `k` with their scores. -/
def similarity_search_with_score (env : Env) (docs : List Doc) (query : String)
    (k : Int) (filter_metadata : Option Meta) : List (Doc × ℚ) :=
  (List.insertionSort scoredLE
    ((docs.filter (passFilter filter_metadata)).map fun d => (d, env.distance query d.page_content))).take
    k.toNat

/-- Ordering of merged query results by ascending score
(`all_results.sort(key=lambda x: x["score"])`). -/
def resultLE (a b : QueryResult) : Prop := a.score ≤ b.score

instance : DecidableRel resultLE := fun a b => inferInstanceAs (Decidable (a.score ≤ b.score))

instance : IsTotal QueryResult resultLE := ⟨fun a b => le_total a.score b.score⟩

instance : IsTrans QueryResult resultLE := ⟨fun _ _ _ h1 h2 => le_trans h1 h2⟩

/-- Python's `list.sort(key=lambda x: x["score"])`: a stable sort by
ascending score. -/
def sortResults (l : List QueryResult) : List QueryResult :=
  List.insertionSort resultLE l

/-- The deduplication loop of `query_agent_memory`: walk the list, keep a
result only if the Python hash of its content has not been seen. -/
def dedupByHash (h : String → Int) : List QueryResult → List Int → List QueryResult
  | [], _ => []
  | r :: t, seen =>
    if h r.content ∈ seen then dedupByHash h t seen
    else r :: dedupByHash h t (h r.content :: seen)

/-- Deduplication by exact text equality: walk the list and keep exactly the
first occurrence of each content string. -/
def dedupFirstByText : List QueryResult → List String → List QueryResult
  | [], _ => []
  | r :: t, seen =>
    if r.content ∈ seen then dedupFirstByText t seen
    else r :: dedupFirstByText t (r.content :: seen)

/-- The success payload of `query_agent_memory`. -/
structure QuerySuccess where
  query : String
  agent_id : String
  retrieved_documents : List QueryResult
  context : String
  total_results : Nat
  unique_results : Nat
  deriving DecidableEq, Repr

/-- Return value of `query_agent_memory`. -/
inductive QueryOutcome where
  | success (r : QuerySuccess)
  | error (msg : String)
  deriving DecidableEq, Repr

/-- The merge/sort/dedup/truncate/context pipeline of `query_agent_memory`
applied to the concatenated private and shared result lists. -/
def assemble_query_result (env : Env) (agent_id query : String) (k : Int)
    (all_results : List QueryResult) : QuerySuccess :=
  let unique_results := dedupByHash env.pyHash (sortResults all_results) []
  let top_results := unique_results.take k.toNat
  { query := query,
    agent_id := agent_id,
    retrieved_documents := top_results,
    context := String.intercalate "\n\n"
      (top_results.map fun r => "[Source: " ++ r.source ++ "]\n" ++ r.content),
    total_results := all_results.length,
    unique_results := unique_results.length }

/-- Tag the scored chunks of one collection as entries of the merged list. -/
def tagResults (source : String) (scored : List (Doc × ℚ)) : List QueryResult :=
  scored.map fun ds =>
    { content := ds.1.page_content, metadata := ds.1.metadata,
      score := ds.2, source := source }

/-- `AgentVectorStore.query_agent_memory`: resolve the caller's private
collection name (a falsy `agent_id` raises `ValueError`, caught by the outer
`except` before any collection access or embedding), get-or-create the
private collection and search it, optionally get-or-create and search the
shared collection, then merge, sort ascending by score, deduplicate by
content hash, truncate to `k`, and build the context string.  Each
`similarity_search_with_score` call embeds the query text once. -/
def query_agent_memory (env : Env) (agent_id query : String) (k : Int)
    (access_shared_knowledge : Bool) (filter_metadata : Option Meta) (s : Store) :
    OpOut QueryOutcome :=
  match get_collection_name (some agent_id) false with
  | Except.error e => ⟨QueryOutcome.error e, s, []⟩
  | Except.ok private_name =>
    let pdocs := (get_or_create_collection s private_name).1
    let s1 := (get_or_create_collection s private_name).2
    let private_results :=
      tagResults "private_memory" (similarity_search_with_score env pdocs query k filter_metadata)
    if access_shared_knowledge then
      let sdocs := (get_or_create_collection s1 shared_collection_name).1
      let s2 := (get_or_create_collection s1 shared_collection_name).2
      let shared_results :=
        tagResults "shared_knowledge" (similarity_search_with_score env sdocs query k filter_metadata)
      ⟨QueryOutcome.success
        (assemble_query_result env agent_id query k (private_results ++ shared_results)),
       s2, [query, query]⟩
    else
      ⟨QueryOutcome.success (assemble_query_result env agent_id query k private_results),
       s1, [query]⟩

/-- Return value of `delete_agent_memory`. -/
inductive DeleteResult where
  | ok (agent_id collection_deleted : String)
  | error (msg : String)
  deriving DecidableEq, Repr

/-- `AgentVectorStore.delete_agent_memory`: resolve the private collection
name (a falsy `agent_id` raises `ValueError`, caught into an error result),
evict the cached handle if present, and remove the directory
`persist_directory/<collection_name>`.  Chroma keeps no such path (see the
module docstring), so the persisted chunks survive; only the cache entry is
removed. -/
def delete_agent_memory (agent_id : String) (s : Store) : OpOut DeleteResult :=
  match get_collection_name (some agent_id) false with
  | Except.error e => ⟨DeleteResult.error e, s, []⟩
  | Except.ok collection_name =>
    ⟨DeleteResult.ok agent_id collection_name,
     { cache := s.cache.erase collection_name, disk := s.disk },
     []⟩

/-- A cached collection handle always has a persisted collection behind it:
true in every state the operations can reach, since creating a handle also
creates the persistent collection and nothing ever removes one. -/
def StoreWF (s : Store) : Prop :=
  ∀ n ∈ s.cache, (diskGet s.disk n).isSome

/-- A concrete environment for witnesses and counterexamples: the distance
of a chunk depends on its length, the hash is the length, the clock is
fixed. -/
def envW : Env :=
  ⟨fun _ c => (c.length : ℚ), fun s => (s.length : Int), "2024-01-01T00:00:00"⟩

/-- The number of private-sourced documents retrieved by a query outcome. -/
def privateRetrievedCount : QueryOutcome → Nat
  | QueryOutcome.success r =>
    (r.retrieved_documents.filter fun x => x.source = "private_memory").length
  | QueryOutcome.error _ => 0

/-- Status of a query outcome, as the Python `result["status"]` string. -/
def queryStatus : QueryOutcome → String
  | QueryOutcome.success _ => "success"
  | QueryOutcome.error _ => "error"

/-- All chunks of the store, across all persisted collections. -/
def storeDocs (s : Store) : List Doc := (s.disk.map Prod.snd).flatten

/-- The chunks stored (anywhere) under a given report identifier. -/
def docsOfReport (s : Store) (report_id : String) : List Doc :=
  (storeDocs s).filter fun d => dictGet d.metadata "report_id" == some (MValue.str report_id)

/-- The claimed per-report invariant: the `chunk_index` values of the chunks
stored under a report identifier are exactly `0 .. n-1` with no gaps or
repeats (as a permutation of `range n`), and every such chunk carries
`total_chunks = n`, where `n` is the number of stored chunks of the
report. -/
def reportChunksWellIndexed (s : Store) (report_id : String) : Prop :=
  ((docsOfReport s report_id).map fun d => dictGet d.metadata "chunk_index").Perm
    ((List.range (docsOfReport s report_id).length).map fun i => some (MValue.int i)) ∧
  ∀ d ∈ docsOfReport s report_id,
    dictGet d.metadata "total_chunks"
      = some (MValue.int (docsOfReport s report_id).length)

/-- Concrete merged results for the C3 witness: a private and a shared copy
of the same text "dup" with distinct scores, plus an unrelated result. -/
def aW : QueryResult := ⟨"dup", [], 1, "private_memory"⟩

def bW : QueryResult := ⟨"dup", [], 2, "shared_knowledge"⟩

def cW : QueryResult := ⟨"x", [], 0, "shared_knowledge"⟩

def lW : List QueryResult := [aW, cW, bW]

/-! ## Helper lemmas: collection naming -/

theorem private_collection_name_inj {a b : String}
    (h : private_collection_name a = private_collection_name b) : a = b := by
  unfold private_collection_name at h
  have h2 := congrArg String.data h
  rw [String.data_append, String.data_append] at h2
  exact String.ext (List.append_cancel_left h2)

theorem private_collection_name_ne_shared (a : String) :
    private_collection_name a ≠ shared_collection_name := by
  intro h
  have h2 := congrArg String.data h
  rw [private_collection_name, shared_collection_name, String.data_append] at h2
  have e1 : "agent_private_memory_".data = 'a' :: "gent_private_memory_".data := rfl
  have e2 : "shared_organizational_knowledge".data
      = 's' :: "hared_organizational_knowledge".data := rfl
  rw [e1, e2, List.cons_append] at h2
  simp at h2

theorem get_collection_name_shared (agent_id : Option String) :
    get_collection_name agent_id true = Except.ok shared_collection_name := rfl

theorem get_collection_name_private {a : String} (h : a ≠ "") :
    get_collection_name (some a) false = Except.ok (private_collection_name a) := by
  simp [get_collection_name, pyTruthy, h]

theorem get_collection_name_private_inv {a n : String}
    (h : get_collection_name (some a) false = Except.ok n) :
    a ≠ "" ∧ n = private_collection_name a := by
  by_cases ha : a = ""
  · subst ha; exact absurd h (by simp [get_collection_name, pyTruthy])
  · rw [get_collection_name_private ha] at h
    cases h
    exact ⟨ha, rfl⟩

/-! ## Helper lemmas: the persisted collection map -/

theorem diskGet_diskSet_self (d : List (String × List Doc)) (n : String) (ds : List Doc) :
    diskGet (diskSet d n ds) n = some ds := by
  induction d with
  | nil => simp [diskSet, diskGet]
  | cons kv t ih =>
    by_cases h : kv.1 = n
    · simp [diskSet, diskGet, h]
    · simp [diskSet, diskGet, h, ih]

theorem diskGet_diskSet_ne (d : List (String × List Doc)) {n m : String}
    (h : m ≠ n) (ds : List Doc) : diskGet (diskSet d n ds) m = diskGet d m := by
  have h' : ¬ n = m := fun e => h e.symm
  induction d with
  | nil => simp [diskSet, diskGet, h']
  | cons kv t ih =>
    obtain ⟨k1, v1⟩ := kv
    by_cases hk : k1 = n
    · subst hk
      simp [diskSet, diskGet, h']
    · simp [diskSet, diskGet, hk, ih]

theorem diskGet_append_singleton_ne (d : List (String × List Doc)) {n m : String}
    (h : m ≠ n) (ds : List Doc) : diskGet (d ++ [(n, ds)]) m = diskGet d m := by
  have h' : ¬ n = m := fun e => h e.symm
  induction d with
  | nil => simp [diskGet, h']
  | cons kv t ih =>
    obtain ⟨k1, v1⟩ := kv
    by_cases hk : k1 = m
    · simp [diskGet, hk]
    · simp [diskGet, hk, ih]



theorem get_or_create_fst (s : Store) (n : String) :
    (get_or_create_collection s n).1 = (diskGet s.disk n).getD [] := by
  unfold get_or_create_collection
  split <;> rfl

theorem get_or_create_disk_ne (s : Store) {n m : String} (h : m ≠ n) :
    diskGet (get_or_create_collection s n).2.disk m = diskGet s.disk m := by
  unfold get_or_create_collection
  split
  · rfl
  · simp only
    split
    · rfl
    · exact diskGet_append_singleton_ne _ h _

theorem diskGet_append_singleton_self (d : List (String × List Doc))
    (hnone : diskGet d n = none) (ds : List Doc) :
    diskGet (d ++ [(n, ds)]) n = some ds := by
  induction d with
  | nil => simp [diskGet]
  | cons kv t ih =>
    obtain ⟨k1, v1⟩ := kv
    by_cases hk : k1 = n
    · simp [diskGet, hk] at hnone
    · simp only [diskGet, hk, if_false, List.cons_append] at hnone ⊢
      exact ih hnone

theorem get_or_create_disk_self (s : Store) (n : String) (hwf : StoreWF s) :
    diskGet (get_or_create_collection s n).2.disk n = some ((diskGet s.disk n).getD []) := by
  unfold get_or_create_collection
  split
  · rename_i hmem
    obtain ⟨v, hv⟩ := Option.isSome_iff_exists.mp (hwf n hmem)
    simp [hv]
  · simp only
    split
    · rename_i hsome
      obtain ⟨v, hv⟩ := Option.isSome_iff_exists.mp hsome
      simp [hv]
    · rename_i hnone
      cases hd : diskGet s.disk n with
      | none => simp [diskGet_append_singleton_self s.disk hd]
      | some v => rw [hd] at hnone; simp at hnone

theorem get_or_create_cache_self (s : Store) (n : String) :
    n ∈ (get_or_create_collection s n).2.cache := by
  unfold get_or_create_collection
  split
  · assumption
  · exact List.mem_cons_self _ _

theorem get_or_create_cache_mono (s : Store) {n m : String} (h : m ∈ s.cache) :
    m ∈ (get_or_create_collection s n).2.cache := by
  unfold get_or_create_collection
  split
  · assumption
  · exact List.mem_cons_of_mem _ h


/-! ## Helper lemmas: frame properties of the operations -/

/-- A non-shared ingestion touches no persisted collection other than the
one derived from the calling agent's identifier. -/
theorem ingest_report_disk_frame (env : Env)
    (agent_id report_id report_title report_content : String)
    (metadata : Option Meta) (s : Store) {n : String}
    (h : n ≠ private_collection_name agent_id) :
    diskGet (ingest_report env agent_id report_id report_title report_content
      false metadata s).store.disk n = diskGet s.disk n := by
  unfold ingest_report
  cases hg : get_collection_name (some agent_id) false with
  | error e => rfl
  | ok name =>
    obtain ⟨-, rfl⟩ := get_collection_name_private_inv hg
    simp only
    split
    · exact get_or_create_disk_ne s h
    · rw [diskGet_diskSet_ne _ h, get_or_create_disk_ne s h]

/-- The result of a private-only query depends only on the persisted chunks
of the caller's own private collection. -/
theorem query_result_congr_private (env : Env) (agent_id query : String) (k : Int)
    (filter_metadata : Option Meta) {s s' : Store}
    (h : diskGet s.disk (private_collection_name agent_id)
       = diskGet s'.disk (private_collection_name agent_id)) :
    (query_agent_memory env agent_id query k false filter_metadata s).result
      = (query_agent_memory env agent_id query k false filter_metadata s').result := by
  unfold query_agent_memory
  cases hg : get_collection_name (some agent_id) false with
  | error e => rfl
  | ok name =>
    obtain ⟨-, rfl⟩ := get_collection_name_private_inv hg
    simp [get_or_create_fst, h]

/-! ## C1: tenancy isolation -/

/-- C1.  Tenancy isolation: a non-shared ingestion by agent `A` writes only
to the persisted collection derived from `A`'s identifier, and a query by a
distinct agent `B` with `access_shared_knowledge = false` reads only `B`'s
own private collection, so its result is exactly what it would have been
without `A`'s ingestion — in particular it returns none of `A`'s chunks,
for any query text and any `k`. -/
theorem tenancy_isolation (env : Env) (A B report_id report_title report_content query : String)
    (metadata : Option Meta) (k : Int) (filter_metadata : Option Meta) (s : Store) (n : String)
    (hAB : A ≠ B) (hn : n ≠ private_collection_name A) :
    diskGet (ingest_report env A report_id report_title report_content
        false metadata s).store.disk n = diskGet s.disk n ∧
    (query_agent_memory env B query k false filter_metadata
        (ingest_report env A report_id report_title report_content false metadata s).store).result
      = (query_agent_memory env B query k false filter_metadata s).result := by
  refine ⟨ingest_report_disk_frame env A report_id report_title report_content metadata s hn, ?_⟩
  apply query_result_congr_private
  apply ingest_report_disk_frame
  intro e
  exact hAB (private_collection_name_inj e).symm

/-- Witness for C1 at concrete agents, report and store. -/
theorem tenancy_isolation_witness :
    (("a1" : String) ≠ "b1" ∧ ("other" : String) ≠ private_collection_name "a1") ∧
    (diskGet (ingest_report envW "a1" "r1" "Title" "hello"
        false none emptyStore).store.disk "other" = diskGet emptyStore.disk "other" ∧
    (query_agent_memory envW "b1" "drought" 2 false none
        (ingest_report envW "a1" "r1" "Title" "hello" false none emptyStore).store).result
      = (query_agent_memory envW "b1" "drought" 2 false none emptyStore).result) :=
  ⟨⟨by decide, by decide⟩,
   tenancy_isolation envW "a1" "b1" "r1" "Title" "hello" "drought" none 2 none emptyStore
     "other" (by decide) (by decide)⟩

/-! ## C2: collection naming -/

/-- C2.  Collection naming is a pure, injective function of tenancy: a
truthy agent identifier maps to its private collection name, two distinct
agent identifiers map to distinct private names, every private name differs
from the shared name, and `is_shared = true` yields the single fixed shared
name regardless of the agent identifier. -/
theorem collection_naming_injective (a b : String) (agent_id : Option String)
    (ha : a ≠ "") (_hb : b ≠ "") (hab : a ≠ b) :
    get_collection_name (some a) false = Except.ok (private_collection_name a) ∧
    private_collection_name a ≠ private_collection_name b ∧
    private_collection_name a ≠ shared_collection_name ∧
    get_collection_name agent_id true = Except.ok shared_collection_name :=
  ⟨get_collection_name_private ha,
   fun e => hab (private_collection_name_inj e),
   private_collection_name_ne_shared a,
   get_collection_name_shared agent_id⟩

/-- Witness for C2 at two concrete distinct agent identifiers. -/
theorem collection_naming_injective_witness :
    (("agent-1" : String) ≠ "" ∧ ("agent-2" : String) ≠ "" ∧
      ("agent-1" : String) ≠ "agent-2") ∧
    (get_collection_name (some "agent-1") false
        = Except.ok (private_collection_name "agent-1") ∧
     private_collection_name "agent-1" ≠ private_collection_name "agent-2" ∧
     private_collection_name "agent-1" ≠ shared_collection_name ∧
     get_collection_name none true = Except.ok shared_collection_name) :=
  ⟨⟨by decide, by decide, by decide⟩,
   collection_naming_injective "agent-1" "agent-2" none (by decide) (by decide) (by decide)⟩


/-! ## Equation lemmas for the operations at a truthy agent identifier -/

theorem chunkWindowsFuel_ne_nil (fuel : Nat) (l : List Char) :
    chunkWindowsFuel fuel l ≠ [] := by
  cases fuel with
  | zero => simp [chunkWindowsFuel]
  | succ f =>
    unfold chunkWindowsFuel
    split <;> simp

theorem chunkWindows_ne_nil (l : List Char) : chunkWindows l ≠ [] :=
  chunkWindowsFuel_ne_nil l.length l

theorem split_text_ne_nil (text : String) : split_text text ≠ [] := by
  unfold split_text
  simp [chunkWindows_ne_nil]

theorem enumFrom_length (i : Nat) (l : List α) : (enumFrom i l).length = l.length := by
  induction l generalizing i with
  | nil => rfl
  | cons a t ih => simp [enumFrom, ih]

theorem build_documents_length (env : Env)
    (agent_id report_id report_title report_content : String)
    (is_shared_knowledge : Bool) (metadata : Option Meta) :
    (build_documents env agent_id report_id report_title report_content
      is_shared_knowledge metadata).length = (split_text report_content).length := by
  unfold build_documents
  simp [enumFrom_length]

theorem build_documents_isEmpty (env : Env)
    (agent_id report_id report_title report_content : String)
    (is_shared_knowledge : Bool) (metadata : Option Meta) :
    (build_documents env agent_id report_id report_title report_content
      is_shared_knowledge metadata).isEmpty = false := by
  cases hb : build_documents env agent_id report_id report_title report_content
      is_shared_knowledge metadata with
  | nil =>
    exfalso
    have hlen := build_documents_length env agent_id report_id report_title
      report_content is_shared_knowledge metadata
    rw [hb] at hlen
    exact split_text_ne_nil report_content (List.length_eq_zero.mp hlen.symm)
  | cons d t => rfl

theorem query_agent_memory_private_eq (env : Env) (agent_id query : String) (k : Int)
    (filter_metadata : Option Meta) (s : Store) (ha : agent_id ≠ "") :
    query_agent_memory env agent_id query k false filter_metadata s
      = ⟨QueryOutcome.success (assemble_query_result env agent_id query k
            (tagResults "private_memory" (similarity_search_with_score env
              (get_or_create_collection s (private_collection_name agent_id)).1
              query k filter_metadata))),
          (get_or_create_collection s (private_collection_name agent_id)).2,
          [query]⟩ := by
  unfold query_agent_memory
  rw [get_collection_name_private ha]
  rfl

theorem query_agent_memory_shared_eq (env : Env) (agent_id query : String) (k : Int)
    (filter_metadata : Option Meta) (s : Store) (ha : agent_id ≠ "") :
    query_agent_memory env agent_id query k true filter_metadata s
      = ⟨QueryOutcome.success (assemble_query_result env agent_id query k
            (tagResults "private_memory" (similarity_search_with_score env
              (get_or_create_collection s (private_collection_name agent_id)).1
              query k filter_metadata)
             ++ tagResults "shared_knowledge" (similarity_search_with_score env
              (get_or_create_collection
                (get_or_create_collection s (private_collection_name agent_id)).2
                shared_collection_name).1 query k filter_metadata))),
          (get_or_create_collection
            (get_or_create_collection s (private_collection_name agent_id)).2
            shared_collection_name).2,
          [query, query]⟩ := by
  unfold query_agent_memory
  rw [get_collection_name_private ha]
  rfl

theorem ingest_report_private_eq (env : Env)
    (agent_id report_id report_title report_content : String)
    (metadata : Option Meta) (s : Store) (ha : agent_id ≠ "") :
    ingest_report env agent_id report_id report_title report_content false metadata s
      = ⟨IngestResult.ok report_id (private_collection_name agent_id)
            (build_documents env agent_id report_id report_title report_content
              false metadata).length,
          { cache := (get_or_create_collection s (private_collection_name agent_id)).2.cache,
            disk := diskSet
              (get_or_create_collection s (private_collection_name agent_id)).2.disk
              (private_collection_name agent_id)
              ((get_or_create_collection s (private_collection_name agent_id)).1
                ++ build_documents env agent_id report_id report_title report_content
                     false metadata) },
          split_text report_content⟩ := by
  unfold ingest_report
  rw [get_collection_name_private ha]
  simp [build_documents_isEmpty]

theorem delete_agent_memory_eq (agent_id : String) (s : Store) (ha : agent_id ≠ "") :
    delete_agent_memory agent_id s
      = ⟨DeleteResult.ok agent_id (private_collection_name agent_id),
          { cache := s.cache.erase (private_collection_name agent_id), disk := s.disk },
          []⟩ := by
  unfold delete_agent_memory
  rw [get_collection_name_private ha]

/-! ## C10: query inserts collection handles -/

/-- `get_or_create_collection` preserves store well-formedness. -/
theorem get_or_create_WF {s : Store} (hwf : StoreWF s) (n : String) :
    StoreWF (get_or_create_collection s n).2 := by
  intro m hm
  by_cases hmn : m = n
  · subst hmn
    rw [get_or_create_disk_self s m hwf]
    rfl
  · rw [get_or_create_disk_ne s hmn]
    apply hwf
    revert hm
    unfold get_or_create_collection
    split
    · exact id
    · intro hm
      rcases List.mem_cons.mp hm with h | h
      · exact absurd h hmn
      · exact h

/-- C10.  A query is not read-only on the registry: it inserts the caller's
private collection handle into the cache (and the shared handle when shared
access is on), creating the persistent collection when it does not yet
exist — even for an agent that has never ingested anything. -/
theorem query_creates_collections (env : Env) (agent_id query : String) (k : Int)
    (access_shared_knowledge : Bool) (filter_metadata : Option Meta) (s : Store)
    (ha : agent_id ≠ "") (hwf : StoreWF s) :
    private_collection_name agent_id
        ∈ (query_agent_memory env agent_id query k access_shared_knowledge
            filter_metadata s).store.cache ∧
    (diskGet (query_agent_memory env agent_id query k access_shared_knowledge
        filter_metadata s).store.disk (private_collection_name agent_id)).isSome ∧
    (access_shared_knowledge = true →
      shared_collection_name
          ∈ (query_agent_memory env agent_id query k access_shared_knowledge
              filter_metadata s).store.cache ∧
      (diskGet (query_agent_memory env agent_id query k access_shared_knowledge
          filter_metadata s).store.disk shared_collection_name).isSome) := by
  cases access_shared_knowledge with
  | false =>
    rw [query_agent_memory_private_eq env agent_id query k filter_metadata s ha]
    refine ⟨get_or_create_cache_self s _, ?_, by simp⟩
    rw [get_or_create_disk_self s _ hwf]
    rfl
  | true =>
    rw [query_agent_memory_shared_eq env agent_id query k filter_metadata s ha]
    refine ⟨get_or_create_cache_mono _ (get_or_create_cache_self s _), ?_, fun _ => ⟨?_, ?_⟩⟩
    · rw [get_or_create_disk_ne _ (private_collection_name_ne_shared agent_id),
        get_or_create_disk_self s _ hwf]
      rfl
    · exact get_or_create_cache_self _ _
    · rw [get_or_create_disk_self _ _ (get_or_create_WF hwf _)]
      rfl

/-- Witness for C10: a fresh store and an agent that has never ingested. -/
theorem query_creates_collections_witness :
    (("agent-7" : String) ≠ "" ∧ StoreWF emptyStore) ∧
    (private_collection_name "agent-7"
        ∈ (query_agent_memory envW "agent-7" "q" 3 true none emptyStore).store.cache ∧
    (diskGet (query_agent_memory envW "agent-7" "q" 3 true none emptyStore).store.disk
        (private_collection_name "agent-7")).isSome ∧
    (true = true →
      shared_collection_name
          ∈ (query_agent_memory envW "agent-7" "q" 3 true none emptyStore).store.cache ∧
      (diskGet (query_agent_memory envW "agent-7" "q" 3 true none emptyStore).store.disk
          shared_collection_name).isSome)) :=
  ⟨⟨by decide, fun n hn => by simp [emptyStore] at hn⟩,
   query_creates_collections envW "agent-7" "q" 3 true none emptyStore (by decide)
     (fun n hn => by simp [emptyStore] at hn)⟩

/-! ## C8: absent collections are empty results / no-op deletes -/

theorem mem_of_mem_dedupByHash {h : String → Int} {l : List QueryResult}
    {seen : List Int} {r : QueryResult} (hr : r ∈ dedupByHash h l seen) : r ∈ l := by
  induction l generalizing seen with
  | nil => exact absurd hr (by simp [dedupByHash])
  | cons a t ih =>
    unfold dedupByHash at hr
    split at hr
    · exact List.mem_cons_of_mem _ (ih hr)
    · rcases List.mem_cons.mp hr with h1 | h1
      · exact h1 ▸ List.mem_cons_self _ _
      · exact List.mem_cons_of_mem _ (ih h1)

theorem source_of_mem_tagResults {src : String} {scored : List (Doc × ℚ)}
    {r : QueryResult} (hr : r ∈ tagResults src scored) : r.source = src := by
  unfold tagResults at hr
  obtain ⟨ds, -, rfl⟩ := List.mem_map.mp hr
  rfl

theorem similarity_search_nil (env : Env) (query : String) (k : Int)
    (filter_metadata : Option Meta) :
    similarity_search_with_score env [] query k filter_metadata = [] := by
  unfold similarity_search_with_score
  simp

/-- Every retrieved document of an assembled query result is drawn from the
merged list the result was assembled from. -/
theorem retrieved_sub_all (env : Env) (agent_id query : String) (k : Int)
    (all_results : List QueryResult) {r : QueryResult}
    (hr : r ∈ (assemble_query_result env agent_id query k all_results).retrieved_documents) :
    r ∈ all_results := by
  unfold assemble_query_result at hr
  have h1 := mem_of_mem_dedupByHash (List.mem_of_mem_take hr)
  unfold sortResults at h1
  exact (List.mem_insertionSort resultLE).mp h1

/-- C8.  Absent-collection handling: a query by an agent whose private
collection does not exist succeeds, its private side contributes zero
results (every retrieved document is shared-sourced, and with shared access
off the result is empty), and deleting that agent's memory is a no-op
success. -/
theorem absent_collection_query_and_delete (env : Env) (agent_id query : String)
    (k : Int) (access_shared_knowledge : Bool) (filter_metadata : Option Meta) (s : Store)
    (ha : agent_id ≠ "")
    (hd : diskGet s.disk (private_collection_name agent_id) = none)
    (hc : private_collection_name agent_id ∉ s.cache) :
    (∃ r, (query_agent_memory env agent_id query k access_shared_knowledge
        filter_metadata s).result = QueryOutcome.success r ∧
      r.retrieved_documents.filter (fun x => x.source = "private_memory") = [] ∧
      (access_shared_knowledge = false → r.retrieved_documents = [])) ∧
    (delete_agent_memory agent_id s).result
        = DeleteResult.ok agent_id (private_collection_name agent_id) ∧
    (delete_agent_memory agent_id s).store = s := by
  have hpdocs : (get_or_create_collection s (private_collection_name agent_id)).1 = [] := by
    rw [get_or_create_fst, hd]
    rfl
  refine ⟨?_, ?_, ?_⟩
  · cases access_shared_knowledge with
    | false =>
      rw [query_agent_memory_private_eq env agent_id query k filter_metadata s ha]
      refine ⟨_, rfl, ?_, fun _ => ?_⟩ <;>
        simp [hpdocs, similarity_search_nil, tagResults, assemble_query_result,
          sortResults, dedupByHash]
    | true =>
      rw [query_agent_memory_shared_eq env agent_id query k filter_metadata s ha]
      refine ⟨_, rfl, ?_, by simp⟩
      rw [List.filter_eq_nil_iff]
      intro r hr
      have hmem := retrieved_sub_all env agent_id query k _ hr
      rw [hpdocs, similarity_search_nil] at hmem
      simp only [tagResults, List.map_nil, List.nil_append] at hmem
      have hsrc := source_of_mem_tagResults hmem
      rw [hsrc]
      decide
  · rw [delete_agent_memory_eq agent_id s ha]
  · rw [delete_agent_memory_eq agent_id s ha]
    cases s with
    | mk c d => simp [List.erase_of_not_mem hc]

/-- Witness for C8: an agent with no collection in a store that holds only
another agent's data. -/
theorem absent_collection_query_and_delete_witness :
    (("ghost" : String) ≠ "" ∧
      diskGet (ingest_report envW "a1" "r1" "T" "hello" false none
          emptyStore).store.disk (private_collection_name "ghost") = none ∧
      private_collection_name "ghost"
        ∉ (ingest_report envW "a1" "r1" "T" "hello" false none emptyStore).store.cache) ∧
    ((∃ r, (query_agent_memory envW "ghost" "q" 2 true none
        (ingest_report envW "a1" "r1" "T" "hello" false none emptyStore).store).result
          = QueryOutcome.success r ∧
      r.retrieved_documents.filter (fun x => x.source = "private_memory") = [] ∧
      (true = false → r.retrieved_documents = [])) ∧
    (delete_agent_memory "ghost"
        (ingest_report envW "a1" "r1" "T" "hello" false none emptyStore).store).result
        = DeleteResult.ok "ghost" (private_collection_name "ghost") ∧
    (delete_agent_memory "ghost"
        (ingest_report envW "a1" "r1" "T" "hello" false none emptyStore).store).store
      = (ingest_report envW "a1" "r1" "T" "hello" false none emptyStore).store) :=
  ⟨⟨by decide, by decide, by decide⟩,
   absent_collection_query_and_delete envW "ghost" "q" 2 true none
     (ingest_report envW "a1" "r1" "T" "hello" false none emptyStore).store
     (by decide) (by decide) (by decide)⟩

/-! ## C4: deletion does not actually remove persisted private chunks -/



/-- C4, evaluated at the failing input: agent `a1` ingests the private
report `r1` ("hello"), `delete_agent_memory("a1")` returns success — but the
`shutil.rmtree` path `persist_directory/agent_private_memory_a1` is not
where Chroma keeps the collection, so only the cached handle is evicted —
and the very next private query by `a1` retrieves the supposedly deleted
chunk, tagged `private_memory`. -/
theorem delete_then_query_returns_private_chunk :
    (delete_agent_memory "a1"
        (ingest_report envW "a1" "r1" "Title" "hello" false none emptyStore).store).result
      = DeleteResult.ok "a1" (private_collection_name "a1") ∧
    privateRetrievedCount
      (query_agent_memory envW "a1" "q" 1 false none
        (delete_agent_memory "a1"
          (ingest_report envW "a1" "r1" "Title" "hello" false none emptyStore).store).store).result
      = 1 := by decide

/-! ## C7: invalid arguments are not pre-validated -/

/-- C7 counterexample: a query with empty query text (and one with `k = 0`)
is not rejected — it returns a success result, and the empty text is
embedded (once per searched collection) rather than the call being refused
before any embedding. -/
theorem invalid_arguments_not_rejected :
    queryStatus (query_agent_memory envW "b1" "" 1 true none emptyStore).result = "success" ∧
    (query_agent_memory envW "b1" "" 1 true none emptyStore).embedded = ["", ""] ∧
    queryStatus (query_agent_memory envW "b1" "text" 0 true none emptyStore).result
      = "success" := by decide

/-- C7 amended: only a malformed tenancy key (a falsy `agent_id` on the
private path) is rejected, by the `ValueError` of `_get_collection_name`,
raised before any collection access or embedding and caught into an error
result; non-positive `k` and empty texts are passed through unvalidated. -/
theorem malformed_tenancy_rejected_before_embedding (env : Env)
    (report_id report_title report_content query : String) (k : Int)
    (access_shared_knowledge : Bool) (metadata filter_metadata : Option Meta) (s : Store) :
    (ingest_report env "" report_id report_title report_content false metadata s).result
      = IngestResult.error "Must provide agent_id for private memory or set is_shared=True" ∧
    (ingest_report env "" report_id report_title report_content false metadata s).store = s ∧
    (ingest_report env "" report_id report_title report_content false metadata s).embedded = [] ∧
    (query_agent_memory env "" query k access_shared_knowledge filter_metadata s).result
      = QueryOutcome.error "Must provide agent_id for private memory or set is_shared=True" ∧
    (query_agent_memory env "" query k access_shared_knowledge filter_metadata s).store = s ∧
    (query_agent_memory env "" query k access_shared_knowledge filter_metadata s).embedded
      = [] :=
  ⟨rfl, rfl, rfl, rfl, rfl, rfl⟩

/-! ## C9: caller metadata overrides system-generated fields -/

theorem dictGet_append_right_some {a b : Meta} {key : String} {v : MValue}
    (h : dictGet b key = some v) : dictGet (a ++ b) key = some v := by
  induction a with
  | nil => simpa using h
  | cons kv t ih =>
    obtain ⟨k1, v1⟩ := kv
    simp [dictGet, ih]

theorem dictGet_append_right_none {a b : Meta} {key : String}
    (h : dictGet b key = none) : dictGet (a ++ b) key = dictGet a key := by
  induction a with
  | nil => simpa using h
  | cons kv t ih =>
    obtain ⟨k1, v1⟩ := kv
    simp only [List.cons_append, dictGet, List.append_eq, ih]

/-- Ingestion into the shared pool: the collection is always the shared one,
independently of `agent_id`. -/
theorem ingest_report_shared_eq (env : Env)
    (agent_id report_id report_title report_content : String)
    (metadata : Option Meta) (s : Store) :
    ingest_report env agent_id report_id report_title report_content true metadata s
      = ⟨IngestResult.ok report_id shared_collection_name
            (build_documents env agent_id report_id report_title report_content
              true metadata).length,
          { cache := (get_or_create_collection s shared_collection_name).2.cache,
            disk := diskSet (get_or_create_collection s shared_collection_name).2.disk
              shared_collection_name
              ((get_or_create_collection s shared_collection_name).1
                ++ build_documents env agent_id report_id report_title report_content
                     true metadata) },
          split_text report_content⟩ := by
  unfold ingest_report
  rw [get_collection_name_shared]
  simp [build_documents_isEmpty]

/-- C9.  Caller metadata precedence: the caller's `metadata` dict is merged
after the system-generated fields (`{..., **(metadata or {})}`), so a caller
binding of any key — in particular `agent_id`, `report_id`, `report_title`,
`chunk_index`, `total_chunks` or `is_shared_knowledge` — replaces the
system-generated value on every chunk stored by the call, and the call
stores exactly those chunks (appended to the target collection). -/
theorem caller_metadata_precedence (env : Env)
    (agent_id report_id report_title report_content : String)
    (is_shared_knowledge : Bool) (m : Meta) (key : String) (v : MValue) (s : Store)
    (_hkey : key ∈ ["agent_id", "report_id", "report_title", "chunk_index",
        "total_chunks", "is_shared_knowledge"])
    (hv : dictGet m key = some v) (ha : agent_id ≠ "") :
    (∀ d ∈ build_documents env agent_id report_id report_title report_content
        is_shared_knowledge (some m), dictGet d.metadata key = some v) ∧
    diskGet (ingest_report env agent_id report_id report_title report_content
        false (some m) s).store.disk (private_collection_name agent_id)
      = some ((diskGet s.disk (private_collection_name agent_id)).getD []
          ++ build_documents env agent_id report_id report_title report_content
               false (some m)) ∧
    diskGet (ingest_report env agent_id report_id report_title report_content
        true (some m) s).store.disk shared_collection_name
      = some ((diskGet s.disk shared_collection_name).getD []
          ++ build_documents env agent_id report_id report_title report_content
               true (some m)) := by
  refine ⟨?_, ?_, ?_⟩
  · intro d hd
    unfold build_documents at hd
    obtain ⟨ic, -, rfl⟩ := List.mem_map.mp hd
    exact dictGet_append_right_some hv
  · rw [ingest_report_private_eq env agent_id report_id report_title report_content
      (some m) s ha]
    rw [diskGet_diskSet_self, get_or_create_fst]
  · rw [ingest_report_shared_eq env agent_id report_id report_title report_content
      (some m) s]
    rw [diskGet_diskSet_self, get_or_create_fst]

/-- Witness for C9: a caller metadata dict overriding `report_id`. -/
theorem caller_metadata_precedence_witness :
    (("report_id" : String) ∈ (["agent_id", "report_id", "report_title", "chunk_index",
        "total_chunks", "is_shared_knowledge"] : List String) ∧
      dictGet [("report_id", MValue.str "spoofed")] "report_id"
        = some (MValue.str "spoofed") ∧
      ("a1" : String) ≠ "") ∧
    ((∀ d ∈ build_documents envW "a1" "r1" "T" "hello" false
        (some [("report_id", MValue.str "spoofed")]),
        dictGet d.metadata "report_id" = some (MValue.str "spoofed")) ∧
    diskGet (ingest_report envW "a1" "r1" "T" "hello" false
        (some [("report_id", MValue.str "spoofed")]) emptyStore).store.disk
        (private_collection_name "a1")
      = some ((diskGet emptyStore.disk (private_collection_name "a1")).getD []
          ++ build_documents envW "a1" "r1" "T" "hello" false
               (some [("report_id", MValue.str "spoofed")])) ∧
    diskGet (ingest_report envW "a1" "r1" "T" "hello" true
        (some [("report_id", MValue.str "spoofed")]) emptyStore).store.disk
        shared_collection_name
      = some ((diskGet emptyStore.disk shared_collection_name).getD []
          ++ build_documents envW "a1" "r1" "T" "hello" true
               (some [("report_id", MValue.str "spoofed")]))) :=
  ⟨⟨by decide, by decide, by decide⟩,
   caller_metadata_precedence envW "a1" "r1" "T" "hello" false
     [("report_id", MValue.str "spoofed")] "report_id" (MValue.str "spoofed") emptyStore
     (by decide) (by decide) (by decide)⟩

/-! ## C5: short documents are a single chunk -/

theorem chunkWindowsFuel_short (fuel : Nat) {l : List Char} (h : l.length ≤ 1000) :
    chunkWindowsFuel fuel l = [l] := by
  cases fuel with
  | zero => rfl
  | succ f => simp [chunkWindowsFuel, h]

theorem split_text_short {t : String} (h : t.length ≤ 1000) : split_text t = [t] := by
  unfold split_text chunkWindows
  rw [chunkWindowsFuel_short _ (h : t.data.length ≤ 1000)]
  cases t with
  | mk d => rfl

/-- C5.  Short-document chunking: a text of at most the window (1000
characters) is chunked as the single chunk equal to the input, and ingesting
such a document stores exactly one chunk, carrying `chunk_index = 0` and
`total_chunks = 1`, appended to the agent's private collection. -/
theorem short_document_single_chunk (env : Env)
    (agent_id report_id report_title t : String) (s : Store)
    (hlen : t.length ≤ 1000) (ha : agent_id ≠ "") :
    split_text t = [t] ∧
    build_documents env agent_id report_id report_title t false none
      = [⟨t, chunk_metadata env agent_id report_id report_title false none 0 1⟩] ∧
    dictGet (chunk_metadata env agent_id report_id report_title false none 0 1)
        "chunk_index" = some (MValue.int 0) ∧
    dictGet (chunk_metadata env agent_id report_id report_title false none 0 1)
        "total_chunks" = some (MValue.int 1) ∧
    (ingest_report env agent_id report_id report_title t false none s).result
      = IngestResult.ok report_id (private_collection_name agent_id) 1 ∧
    diskGet (ingest_report env agent_id report_id report_title t false none s).store.disk
        (private_collection_name agent_id)
      = some ((diskGet s.disk (private_collection_name agent_id)).getD []
          ++ [⟨t, chunk_metadata env agent_id report_id report_title false none 0 1⟩]) := by
  have hb : build_documents env agent_id report_id report_title t false none
      = [⟨t, chunk_metadata env agent_id report_id report_title false none 0 1⟩] := by
    unfold build_documents
    rw [split_text_short hlen]
    rfl
  refine ⟨split_text_short hlen, hb, rfl, rfl, ?_, ?_⟩
  · rw [ingest_report_private_eq env agent_id report_id report_title t none s ha, hb]
    rfl
  · rw [ingest_report_private_eq env agent_id report_id report_title t none s ha]
    rw [diskGet_diskSet_self, get_or_create_fst, hb]

/-- Witness for C5 at a concrete short document. -/
theorem short_document_single_chunk_witness :
    (("hello" : String).length ≤ 1000 ∧ ("a1" : String) ≠ "") ∧
    (split_text "hello" = ["hello"] ∧
    build_documents envW "a1" "r1" "T" "hello" false none
      = [⟨"hello", chunk_metadata envW "a1" "r1" "T" false none 0 1⟩] ∧
    dictGet (chunk_metadata envW "a1" "r1" "T" false none 0 1) "chunk_index"
      = some (MValue.int 0) ∧
    dictGet (chunk_metadata envW "a1" "r1" "T" false none 0 1) "total_chunks"
      = some (MValue.int 1) ∧
    (ingest_report envW "a1" "r1" "T" "hello" false none emptyStore).result
      = IngestResult.ok "r1" (private_collection_name "a1") 1 ∧
    diskGet (ingest_report envW "a1" "r1" "T" "hello" false none emptyStore).store.disk
        (private_collection_name "a1")
      = some ((diskGet emptyStore.disk (private_collection_name "a1")).getD []
          ++ [⟨"hello", chunk_metadata envW "a1" "r1" "T" false none 0 1⟩])) :=
  ⟨⟨by decide, by decide⟩,
   short_document_single_chunk envW "a1" "r1" "T" "hello" emptyStore (by decide) (by decide)⟩

/-! ## C6: per-report chunk-index invariant -/




/-- C6 counterexample: the invariant is *not* preserved by every sequence
of operations — ingesting the same report identifier twice appends a second
copy of the chunks, so `chunk_index` 0 occurs twice for that report (and
`total_chunks` no longer matches the stored count) in a state reached from
the empty store by two operations. -/
theorem repeated_ingest_breaks_chunk_index_invariant :
    ¬ reportChunksWellIndexed
        (ingest_report envW "a1" "r1" "T" "x" false none
          (ingest_report envW "a1" "r1" "T" "x" false none emptyStore).store).store
        "r1" := by
  intro h
  exact absurd h.1 (by decide)

theorem chunk_metadata_chunk_index (env : Env)
    (agent_id report_id report_title : String) (is_shared_knowledge : Bool)
    (metadata : Option Meta) (i total : Nat)
    (hidx : dictGet (metadata.getD []) "chunk_index" = none) :
    dictGet (chunk_metadata env agent_id report_id report_title is_shared_knowledge
      metadata i total) "chunk_index" = some (MValue.int i) := by
  unfold chunk_metadata
  rw [dictGet_append_right_none hidx]
  rfl

theorem chunk_metadata_total_chunks (env : Env)
    (agent_id report_id report_title : String) (is_shared_knowledge : Bool)
    (metadata : Option Meta) (i total : Nat)
    (htot : dictGet (metadata.getD []) "total_chunks" = none) :
    dictGet (chunk_metadata env agent_id report_id report_title is_shared_knowledge
      metadata i total) "total_chunks" = some (MValue.int total) := by
  unfold chunk_metadata
  rw [dictGet_append_right_none htot]
  rfl

theorem enumFrom_get (i : Nat) (l : List α) (j : Nat) (hj : j < l.length) :
    (enumFrom i l).get ⟨j, by rw [enumFrom_length]; exact hj⟩ = (i + j, l.get ⟨j, hj⟩) := by
  induction l generalizing i j with
  | nil => exact absurd hj (Nat.not_lt_zero j)
  | cons a t ih =>
    cases j with
    | zero => simp [enumFrom]
    | succ jj =>
      have hjj : jj < t.length := Nat.lt_of_succ_lt_succ hj
      have hrec := ih (i + 1) jj hjj
      simp only [enumFrom, List.get_cons_succ] at hrec ⊢
      rw [hrec]
      congr 1
      omega

/-- C6 amended: the chunks written by a *single* ingestion call are well
indexed — the `j`-th built document carries `chunk_index = j` and every
built document carries `total_chunks` equal to the number of chunks of the
call — provided the caller metadata does not override those keys.  Across
calls the invariant can fail (see the counterexample): re-ingesting a
report identifier appends a fresh copy of indices `0 .. n-1`. -/
theorem single_ingest_chunks_well_indexed (env : Env)
    (agent_id report_id report_title report_content : String)
    (is_shared_knowledge : Bool) (metadata : Option Meta)
    (hidx : dictGet (metadata.getD []) "chunk_index" = none)
    (htot : dictGet (metadata.getD []) "total_chunks" = none) :
    (∀ j (hj : j < (build_documents env agent_id report_id report_title report_content
        is_shared_knowledge metadata).length),
      dictGet ((build_documents env agent_id report_id report_title report_content
          is_shared_knowledge metadata).get ⟨j, hj⟩).metadata "chunk_index"
        = some (MValue.int j)) ∧
    ∀ d ∈ build_documents env agent_id report_id report_title report_content
        is_shared_knowledge metadata,
      dictGet d.metadata "total_chunks"
        = some (MValue.int (build_documents env agent_id report_id report_title
            report_content is_shared_knowledge metadata).length) := by
  constructor
  · intro j hj
    have hj2 : j < (enumFrom 0 (split_text report_content)).length := by
      have := build_documents_length env agent_id report_id report_title report_content
        is_shared_knowledge metadata
      rw [enumFrom_length]
      omega
    have hj3 : j < (split_text report_content).length := by
      rwa [enumFrom_length] at hj2
    unfold build_documents
    rw [List.get_map]
    have hget := enumFrom_get 0 (split_text report_content) j hj3
    have hfin : (⟨j, hj2⟩ : Fin (enumFrom 0 (split_text report_content)).length)
        = ⟨j, by rw [enumFrom_length]; exact hj3⟩ := rfl
    rw [hfin, hget]
    simp only [Nat.zero_add]
    exact chunk_metadata_chunk_index env agent_id report_id report_title
      is_shared_knowledge metadata j _ hidx
  · intro d hd
    unfold build_documents at hd
    obtain ⟨ic, -, rfl⟩ := List.mem_map.mp hd
    rw [build_documents_length]
    exact chunk_metadata_total_chunks env agent_id report_id report_title
      is_shared_knowledge metadata ic.1 _ htot

/-- Witness for the amended C6 at a concrete call. -/
theorem single_ingest_chunks_well_indexed_witness :
    (dictGet ((none : Option Meta).getD []) "chunk_index" = none ∧
      dictGet ((none : Option Meta).getD []) "total_chunks" = none) ∧
    ((∀ j (hj : j < (build_documents envW "a1" "r1" "T" "x" false none).length),
      dictGet ((build_documents envW "a1" "r1" "T" "x" false none).get ⟨j, hj⟩).metadata
          "chunk_index" = some (MValue.int j)) ∧
    ∀ d ∈ build_documents envW "a1" "r1" "T" "x" false none,
      dictGet d.metadata "total_chunks"
        = some (MValue.int (build_documents envW "a1" "r1" "T" "x" false none).length)) :=
  ⟨⟨by decide, by decide⟩,
   single_ingest_chunks_well_indexed envW "a1" "r1" "T" "x" false none
     (by decide) (by decide)⟩

/-! ## C3: deduplication is by exact chunk text equality -/

theorem sortResults_perm (l : List QueryResult) : List.Perm (sortResults l) l :=
  List.perm_insertionSort resultLE l

theorem sortResults_sorted (l : List QueryResult) :
    List.Pairwise resultLE (sortResults l) :=
  List.sorted_insertionSort resultLE l

/-- If the duplicate-tracking set already contains `X`, no `X`-content
result survives deduplication by text. -/
theorem dedupFirstByText_filter_of_mem {l : List QueryResult} {seen : List String}
    {X : String} (hX : X ∈ seen) :
    (dedupFirstByText l seen).filter (fun r => r.content == X) = [] := by
  induction l generalizing seen with
  | nil => rfl
  | cons r t ih =>
    unfold dedupFirstByText
    split
    · exact ih hX
    · rename_i hmem
      have hne : (r.content == X) = false := by
        rw [beq_eq_false_iff_ne]
        intro e
        exact hmem (e ▸ hX)
      rw [List.filter_cons]
      simp only [hne, Bool.false_eq_true, if_false]
      exact ih (List.mem_cons_of_mem _ hX)

/-- Walking a list, deduplication by text keeps exactly the first
occurrence of each content string: filtering the deduplicated list to one
content yields the first occurrence of that content in the input. -/
theorem dedupFirstByText_filter_take {l : List QueryResult} {seen : List String}
    {X : String} (hX : X ∉ seen) :
    (dedupFirstByText l seen).filter (fun r => r.content == X)
      = (l.filter (fun r => r.content == X)).take 1 := by
  induction l generalizing seen with
  | nil => rfl
  | cons r t ih =>
    unfold dedupFirstByText
    by_cases hrX : r.content = X
    · subst hrX
      split
      · rename_i hmem
        exact absurd hmem hX
      · rw [List.filter_cons, List.filter_cons]
        simp only [beq_self_eq_true, if_true]
        rw [dedupFirstByText_filter_of_mem (List.mem_cons_self _ _)]
        rfl
    · have hne : (r.content == X) = false := by
        rw [beq_eq_false_iff_ne]
        exact hrX
      split
      · rw [List.filter_cons]
        simp only [hne, Bool.false_eq_true, if_false]
        exact ih hX
      · rw [List.filter_cons, List.filter_cons]
        simp only [hne, Bool.false_eq_true, if_false]
        refine ih fun hmem => ?_
        rcases List.mem_cons.mp hmem with he | he
        · exact hrX he.symm
        · exact hX he

/-- When the runtime hash is injective on the contents in play, the
hash-based deduplication loop of `query_agent_memory` coincides with
deduplication by exact text equality. -/
theorem dedupByHash_eq_dedupFirstByText (h : String → Int) (l : List QueryResult)
    (seen : List String)
    (hinj : ∀ x ∈ l.map (fun r => r.content) ++ seen,
      ∀ y ∈ l.map (fun r => r.content) ++ seen, h x = h y → x = y) :
    dedupByHash h l (seen.map h) = dedupFirstByText l seen := by
  induction l generalizing seen with
  | nil => rfl
  | cons r t ih =>
    have hsub1 : ∀ x ∈ t.map (fun r => r.content) ++ seen,
        x ∈ (r :: t).map (fun r => r.content) ++ seen := by
      intro x hx
      rcases List.mem_append.mp hx with h1 | h1
      · exact List.mem_append.mpr (Or.inl (List.mem_cons_of_mem _ h1))
      · exact List.mem_append.mpr (Or.inr h1)
    have hsub2 : ∀ x ∈ t.map (fun r => r.content) ++ (r.content :: seen),
        x ∈ (r :: t).map (fun r => r.content) ++ seen := by
      intro x hx
      rcases List.mem_append.mp hx with h1 | h1
      · exact List.mem_append.mpr (Or.inl (List.mem_cons_of_mem _ h1))
      · rcases List.mem_cons.mp h1 with he | he
        · exact List.mem_append.mpr (Or.inl (he ▸ List.mem_cons_self _ _))
        · exact List.mem_append.mpr (Or.inr he)
    have hcond : (h r.content ∈ seen.map h) ↔ (r.content ∈ seen) := by
      constructor
      · intro hm
        obtain ⟨x, hx, hhx⟩ := List.mem_map.mp hm
        have hxr : x = r.content := by
          refine hinj x (List.mem_append.mpr (Or.inr hx)) r.content ?_ hhx
          exact List.mem_append.mpr (Or.inl (List.mem_cons_self _ _))
        exact hxr ▸ hx
      · exact fun hm => List.mem_map_of_mem h hm
    unfold dedupByHash dedupFirstByText
    by_cases hc : r.content ∈ seen
    · rw [if_pos (hcond.mpr hc), if_pos hc]
      exact ih seen fun x hx y hy => hinj x (hsub1 x hx) y (hsub1 y hy)
    · rw [if_neg (fun hm => hc (hcond.mp hm)), if_neg hc]
      congr 1
      have hmap : (r.content :: seen).map h = h r.content :: seen.map h := rfl
      rw [← hmap]
      exact ih (r.content :: seen) fun x hx y hy => hinj x (hsub2 x hx) y (hsub2 y hy)

/-- A list permuting a pair is that pair in one of its two orders. -/
theorem perm_pair_cases {α : Type} {l : List α} {a b : α} (h : List.Perm l [a, b]) :
    l = [a, b] ∨ l = [b, a] := by
  have hlen := h.length_eq
  cases l with
  | nil => simp at hlen
  | cons x t =>
    cases t with
    | nil => simp at hlen
    | cons y t2 =>
      cases t2 with
      | cons z t3 => simp at hlen
      | nil =>
        have hx : x ∈ [a, b] := h.mem_iff.mp (List.mem_cons_self _ _)
        rcases List.mem_cons.mp hx with rfl | hx2
        · left
          have h2 : List.Perm [y] [b] := h.cons_inv
          have hy : y = b := by
            have := h2.mem_iff.mp (List.mem_singleton_self y)
            simpa using this
          rw [hy]
        · have hxb : x = b := by simpa using hx2
          subst hxb
          right
          have h3 : List.Perm [x, y] [x, a] := h.trans (List.Perm.swap x a [])
          have h2 : List.Perm [y] [a] := h3.cons_inv
          have hy : y = a := by
            have := h2.mem_iff.mp (List.mem_singleton_self y)
            simpa using this
          rw [hy]

/-- C3.  Query deduplication is by exact chunk text equality over the
distance-sorted merged list (provided the runtime string hash used by the
`seen_content` set has no collision among the contents in play): the
retrieved documents are the truncation of exactly this sort-then-dedup
pipeline, the hash-based dedup keeps the first occurrence of each text of
the sorted list and drops every later one, and when the merged list holds
exactly two byte-identical contents — one private, one shared — the
deduplicated result keeps exactly the copy with the strictly lower
distance score, with its source tag. -/
theorem query_dedup_by_text (env : Env) (agent_id query : String) (k : Int)
    (l : List QueryResult) (a b : QueryResult) (X : String)
    (hinj : ∀ x ∈ l.map (fun r => r.content), ∀ y ∈ l.map (fun r => r.content),
      env.pyHash x = env.pyHash y → x = y) :
    (assemble_query_result env agent_id query k l).retrieved_documents
      = (dedupByHash env.pyHash (sortResults l) []).take k.toNat ∧
    dedupByHash env.pyHash (sortResults l) [] = dedupFirstByText (sortResults l) [] ∧
    ((l.filter fun r => r.content == X) = [a, b] → a.score < b.score →
      (dedupByHash env.pyHash (sortResults l) []).filter (fun r => r.content == X)
        = [a]) := by
  have hinj2 : ∀ x ∈ (sortResults l).map (fun r => r.content) ++ ([] : List String),
      ∀ y ∈ (sortResults l).map (fun r => r.content) ++ ([] : List String),
      env.pyHash x = env.pyHash y → x = y := by
    intro x hx y hy
    have hx2 : x ∈ (sortResults l).map fun r => r.content := by simpa using hx
    have hy2 : y ∈ (sortResults l).map fun r => r.content := by simpa using hy
    exact hinj x (((sortResults_perm l).map fun r => r.content).mem_iff.mp hx2)
      y (((sortResults_perm l).map fun r => r.content).mem_iff.mp hy2)
  have h1 : dedupByHash env.pyHash (sortResults l) [] = dedupFirstByText (sortResults l) [] := by
    have := dedupByHash_eq_dedupFirstByText env.pyHash (sortResults l) [] hinj2
    simpa using this
  refine ⟨rfl, h1, fun hfil hab => ?_⟩
  rw [h1, dedupFirstByText_filter_take (List.not_mem_nil X)]
  have hperm : List.Perm ((sortResults l).filter fun r => r.content == X) [a, b] := by
    have := (sortResults_perm l).filter fun r => r.content == X
    rw [hfil] at this
    exact this
  have hsorted : List.Pairwise resultLE
      ((sortResults l).filter fun r => r.content == X) :=
    (sortResults_sorted l).sublist (List.filter_sublist _)
  rcases perm_pair_cases hperm with he | he
  · rw [he]
    rfl
  · exfalso
    rw [he] at hsorted
    have hba : resultLE b a :=
      (List.pairwise_cons.mp hsorted).1 a (List.mem_singleton_self a)
    exact absurd hab (not_lt.mpr hba)


/-- Witness for C3 at a concrete merged list with a duplicated text. -/
theorem query_dedup_by_text_witness :
    ((∀ x ∈ lW.map (fun r => r.content), ∀ y ∈ lW.map (fun r => r.content),
        envW.pyHash x = envW.pyHash y → x = y) ∧
      (lW.filter fun r => r.content == "dup") = [aW, bW] ∧ aW.score < bW.score) ∧
    ((assemble_query_result envW "a1" "q" 2 lW).retrieved_documents
        = (dedupByHash envW.pyHash (sortResults lW) []).take (2 : Int).toNat ∧
     dedupByHash envW.pyHash (sortResults lW) []
        = dedupFirstByText (sortResults lW) [] ∧
     (dedupByHash envW.pyHash (sortResults lW) []).filter (fun r => r.content == "dup")
        = [aW]) :=
  ⟨⟨by decide, by decide, by decide⟩,
   ⟨(query_dedup_by_text envW "a1" "q" 2 lW aW bW "dup" (by decide)).1,
    (query_dedup_by_text envW "a1" "q" 2 lW aW bW "dup" (by decide)).2.1,
    (query_dedup_by_text envW "a1" "q" 2 lW aW bW "dup" (by decide)).2.2
      (by decide) (by decide)⟩⟩
